import Mathlib

/-!
Verification development for the `summarize_code.py` code-structure summarizer.

The program turns parsed syntax trees into indented text outlines.  The parts
with algorithmic content embedded here are:

* `get_node_text` — the node-text accessor (UTF-8 decoding with replacement);
* the C++ regrouping post-processor inside `process_cpp` (Pass A re-parenting
  of `::`-qualified top-level definitions, Pass B same-kind grouping via
  `format_block`), including its exception behavior;
* the per-file wrapper control flow (`process_cpp`, `process_csharp`,
  `process_javascript`, `process_python`, `process_cshtml`): parser-missing
  early return, empty-file omission, error sections at the file boundary;
* the CSHTML leading-directive scan;
* the final artifact write (`main`), which conditionally drops a leading
  blank buffer element.

Syntax-tree construction is performed by the external tree-sitter library and
is out of scope; the per-language tree walkers are abstracted as inputs (their
produced line lists, or the exception they raised) to the wrapper functions,
which is the level at which the claims under study speak.

Strings are modelled as Lean `String`s; all character-level work happens on
`List Char` via the `Py*` helpers below, which mirror the Python string
operations the program uses (`strip`, `split`, `rsplit`, `startswith`,
`str.join`, `sorted`, membership of a substring).  The modelled alphabet is
the ASCII fragment the program's own tokens use; Python's additional Unicode
whitespace and word characters do not occur in the program's fixed tokens.
-/

/-! ### Python-style character classes and list-level string helpers -/

/-- Python whitespace characters (ASCII fragment): the characters matched by
`str.strip`, `str.split()` and the regex class backslash-s on the program's data. -/
def pyIsSpace (c : Char) : Bool :=
  c = ' ' || c = '\t' || c = '\n' || c = '\r' || c = '\x0b' || c = '\x0c'

/-- Regex word characters (ASCII fragment of backslash-w): letters, digits, underscore. -/
def isWordChar (c : Char) : Bool :=
  ('a' ≤ c && c ≤ 'z') || ('A' ≤ c && c ≤ 'Z') || ('0' ≤ c && c ≤ '9') || c = '_'

/-- `l.strip()` on a character list: remove leading and trailing whitespace. -/
def pyStripL (l : List Char) : List Char :=
  ((l.dropWhile pyIsSpace).reverse.dropWhile pyIsSpace).reverse

/-- `s.strip()` for strings. -/
def pyStrip (s : String) : String :=
  String.mk (pyStripL s.data)

/-- Whether the first character is a space: `line.startswith(" ")` (a single
space character, not general whitespace). -/
def startsWithSpace (l : List Char) : Bool :=
  match l with
  | [] => false
  | c :: _ => c = ' '

/-- `pat` occurs in `l` starting at index `i`. -/
def occAt (pat l : List Char) (i : Nat) : Bool :=
  pat.isPrefixOf (l.drop i)

/-- Python `pat in l`: the substring occurs somewhere. -/
def hasSubL (pat l : List Char) : Bool :=
  (List.range (l.length + 1)).any (occAt pat l)

/-- Index of the rightmost occurrence of `pat` in `l`, if any. -/
def lastOcc (pat l : List Char) : Option Nat :=
  ((List.range (l.length + 1)).filter (occAt pat l)).getLast?

/-- Python `l.rsplit(pat, 1)` when it actually splits: the pieces before and
after the rightmost occurrence of `pat`.  `none` models the single-element
result whose two-variable unpacking raises `ValueError` in the program. -/
def rsplitOnce (pat l : List Char) : Option (List Char × List Char) :=
  match lastOcc pat l with
  | some i => some (l.take i, l.drop (i + pat.length))
  | none => none

/-- One step of `str.split()` (whitespace split, empty pieces dropped),
as a foldr accumulator: current word under construction, finished words. -/
def splitWsStep (c : Char) (acc : List Char × List (List Char)) :
    List Char × List (List Char) :=
  if pyIsSpace c then
    ([], if acc.1 = [] then acc.2 else acc.1 :: acc.2)
  else
    (c :: acc.1, acc.2)

/-- Python `s.split()` with no arguments: split on whitespace runs, dropping
empty pieces. -/
def pySplitWsL (l : List Char) : List (List Char) :=
  let r := l.foldr splitWsStep ([], [])
  if r.1 = [] then r.2 else r.1 :: r.2

/-- Python string `<` on character lists: lexicographic by code point. -/
def pyLtL : List Char → List Char → Bool
  | [], [] => false
  | [], _ :: _ => true
  | _ :: _, [] => false
  | a :: as, b :: bs => a.toNat < b.toNat || (a = b && pyLtL as bs)

/-- Python `<` on strings. -/
def pyStrLt (s t : String) : Bool :=
  pyLtL s.data t.data

/-- Insert into a sorted list, placing the new element after any equal ones
(as Python's stable sort does). -/
def insertLt {α : Type} (lt : α → α → Bool) (x : α) : List α → List α
  | [] => [x]
  | y :: ys => if lt x y then x :: y :: ys else y :: insertLt lt x ys

/-- Insertion sort with a strict comparator; agrees with Python `sorted`. -/
def sortLt {α : Type} (lt : α → α → Bool) (l : List α) : List α :=
  l.foldl (fun acc x => insertLt lt x acc) []

/-- `sorted(strings)`. -/
def pySorted (l : List String) : List String :=
  sortLt pyStrLt l

/-- First-occurrence deduplication; composed with the sort it models Python
`sorted(list(set(xs)))` for string lists. -/
def dedupKeepFirst (l : List String) : List String :=
  l.foldl (fun acc x => if acc.contains x then acc else acc ++ [x]) []

/-- Python `sorted(list(set(xs)))` for a list of strings. -/
def pySortedDedup (l : List String) : List String :=
  pySorted (dedupKeepFirst l)

/-- `sep.join(xs)` for strings. -/
def pyJoin (sep : String) (xs : List String) : String :=
  String.mk (List.intercalate sep.data (xs.map String.data))

/-! ### Node-text accessor (`get_node_text`) and UTF-8 decoding

`get_node_text(node, source_bytes, default)` returns `default` for an absent
node and otherwise decodes `source_bytes[node.start_byte:node.end_byte]` as
UTF-8 with `errors="replace"`.  Bytes are modelled as `Nat`s below 256; the
decoder mirrors the W3C/CPython table: valid sequences are 1 to 4 bytes with
the usual continuation ranges, overlongs, surrogates and values above
U+10FFFF rejected; each maximal invalid subpart produces one replacement. -/

/-- A syntax-tree node as the accessor sees it: only its byte span matters. -/
structure TSNode where
  startByte : Nat
  endByte : Nat

/-- Python slice `bs[a:b]` for non-negative indices (clamping out of range). -/
def pySlice (bs : List Nat) (a b : Nat) : List Nat :=
  (bs.take b).drop a

/-- Lower bound for the second byte of a three-byte sequence led by `b1`. -/
def cont2lo (b1 : Nat) : Nat :=
  if b1 = 0xE0 then 0xA0 else 0x80

/-- Upper bound (exclusive) for the second byte of a three-byte sequence. -/
def cont2hi (b1 : Nat) : Nat :=
  if b1 = 0xED then 0xA0 else 0xC0

/-- Lower bound for the second byte of a four-byte sequence led by `b1`. -/
def cont3lo (b1 : Nat) : Nat :=
  if b1 = 0xF0 then 0x90 else 0x80

/-- Upper bound (exclusive) for the second byte of a four-byte sequence. -/
def cont3hi (b1 : Nat) : Nat :=
  if b1 = 0xF4 then 0x90 else 0xC0

/-- UTF-8 decoding into code points; `none` marks one replacement for a
maximal invalid subpart, as `bytes.decode("utf8", errors="replace")` does. -/
def utf8DecodeUnits : List Nat → List (Option Nat)
  | [] => []
  | b1 :: rest =>
    if b1 < 0x80 then
      some b1 :: utf8DecodeUnits rest
    else if b1 < 0xC2 then
      none :: utf8DecodeUnits rest
    else if b1 < 0xE0 then
      match h2 : rest with
      | b2 :: rest2 =>
        if 0x80 ≤ b2 ∧ b2 < 0xC0 then
          some ((b1 - 0xC0) * 0x40 + (b2 - 0x80)) :: utf8DecodeUnits rest2
        else
          none :: utf8DecodeUnits rest
      | [] => [none]
    else if b1 < 0xF0 then
      match h2 : rest with
      | b2 :: rest2 =>
        if cont2lo b1 ≤ b2 ∧ b2 < cont2hi b1 then
          match h3 : rest2 with
          | b3 :: rest3 =>
            if 0x80 ≤ b3 ∧ b3 < 0xC0 then
              some ((b1 - 0xE0) * 0x1000 + (b2 - 0x80) * 0x40 + (b3 - 0x80)) ::
                utf8DecodeUnits rest3
            else
              none :: utf8DecodeUnits rest2
          | [] => [none]
        else
          none :: utf8DecodeUnits rest
      | [] => [none]
    else if b1 < 0xF5 then
      match h2 : rest with
      | b2 :: rest2 =>
        if cont3lo b1 ≤ b2 ∧ b2 < cont3hi b1 then
          match h3 : rest2 with
          | b3 :: rest3 =>
            if 0x80 ≤ b3 ∧ b3 < 0xC0 then
              match h4 : rest3 with
              | b4 :: rest4 =>
                if 0x80 ≤ b4 ∧ b4 < 0xC0 then
                  some ((b1 - 0xF0) * 0x40000 + (b2 - 0x80) * 0x1000 +
                        (b3 - 0x80) * 0x40 + (b4 - 0x80)) :: utf8DecodeUnits rest4
                else
                  none :: utf8DecodeUnits rest3
              | [] => [none]
            else
              none :: utf8DecodeUnits rest2
          | [] => [none]
        else
          none :: utf8DecodeUnits rest
      | [] => [none]
    else
      none :: utf8DecodeUnits rest
  termination_by bs => bs.length
  decreasing_by all_goals (subst_vars; simp only [List.length_cons]; omega)

/-- Each decode unit becomes a character; a failed unit becomes U+FFFD. -/
def unitsToChars (us : List (Option Nat)) : List Char :=
  us.map (fun u => Char.ofNat (u.getD 0xFFFD))

/-- `bytes.decode("utf8", errors="replace")`. -/
def utf8DecodeReplace (bs : List Nat) : String :=
  String.mk (unitsToChars (utf8DecodeUnits bs))

/-- `get_node_text(node, source_bytes, default)` from the source. -/
def get_node_text (node : Option TSNode) (sourceBytes : List Nat)
    (dflt : String) : String :=
  match node with
  | none => dflt
  | some n => utf8DecodeReplace (pySlice sourceBytes n.startByte n.endByte)

/-- Valid Unicode scalar values (no surrogates, at most U+10FFFF). -/
def validCpB (n : Nat) : Bool :=
  n < 0xD800 || (0xE000 ≤ n && n < 0x110000)

/-- Reference UTF-8 encoder, used only to state correctness of the decoder:
the standard encoding of one code point. -/
def utf8EncodeCp (n : Nat) : List Nat :=
  if n < 0x80 then [n]
  else if n < 0x800 then [0xC0 + n / 0x40, 0x80 + n % 0x40]
  else if n < 0x10000 then
    [0xE0 + n / 0x1000, 0x80 + (n / 0x40) % 0x40, 0x80 + n % 0x40]
  else
    [0xF0 + n / 0x40000, 0x80 + (n / 0x1000) % 0x40,
     0x80 + (n / 0x40) % 0x40, 0x80 + n % 0x40]

/-- Reference UTF-8 encoding of a sequence of code points. -/
def utf8EncodeList (ns : List Nat) : List Nat :=
  (ns.map utf8EncodeCp).foldr (fun a b => a ++ b) []

/-! ### C++ regrouping post-processor (`process_cpp`)

`process_cpp` first runs the tree walker (abstracted here), then repairs the
flat line list in two passes:

* Pass A scans top-level lines (no leading space) containing `::`: if the
  line matches `(word+):(ws*)(signature)`, the signature is split at the
  *last* `::`; the last whitespace-separated word of the left part becomes
  the owning type, any preceding words the declared type, and the member is
  re-filed (without the qualifier) under a synthesized group for the owning
  type.  A signature without `::` makes the two-variable unpacking raise
  `ValueError`, which is caught and the line kept in place.  An all-blank
  left part makes `qualifiers_parts[-1]` raise `IndexError`, which is *not*
  caught by the `except ValueError` fallback and escapes to the per-file
  `except Exception` handler.
* Pass B scans the remaining lines top-down; a line matching
  `(ws*)(CLASS|STRUCT|NAMESPACE):...` is kept standalone and all following
  lines of strictly deeper indentation are collected as its block, which
  `format_block` regroups: members are bucketed by their KIND label,
  rendered under a `KIND:` header in the fixed order FIELD, CONSTRUCTOR,
  DESTRUCTOR, FUNC, FUNC_DECL (remaining kinds afterwards in sorted order),
  each bucket sorted lexicographically (duplicates kept).

Finally the synthesized Pass-A groups are appended as `CLASS:` headers in
owning-type order, each with its `format_block`-processed members. -/

/-- The two characters of the scope token `::`. -/
def dcolon : List Char := [':', ':']

/-- `re.match(r"^(?P<type>\w+):\s*(?P<text>.*)", line)` (also used with a
leading `\s*` stripped off by the caller): the maximal word-character run,
a colon, then the rest of the line after optional whitespace, up to a
newline (regex `.` does not cross newlines; `re.match` anchors a prefix). -/
def reMatchKindSig (l : List Char) : Option (List Char × List Char) :=
  if l.takeWhile isWordChar = [] then none
  else
    match l.drop (l.takeWhile isWordChar).length with
    | c :: rest =>
      if c = ':' then
        some (l.takeWhile isWordChar,
          (rest.dropWhile pyIsSpace).takeWhile (fun c2 => c2 ≠ '\n'))
      else none
    | [] => none

/-- `re.match(r"^\s*(?P<type>\w+):\s*(?P<text>.*)", line)` as used by
`format_block`: leading whitespace allowed, and the captured text is
afterwards `strip()`ped by the caller, which we fold in. -/
def memberMatch (line : String) : Option (String × String) :=
  match reMatchKindSig (line.data.dropWhile pyIsSpace) with
  | some (ty, txt) => some (String.mk ty, String.mk (pyStripL txt))
  | none => none

/-- Append a value to the bucket of `k`, creating the bucket at the end on
first use — a `defaultdict(list)` in insertion order. -/
def assocAppend (g : List (String × List String)) (k v : String) :
    List (String × List String) :=
  match g with
  | [] => [(k, [v])]
  | (k0, vs) :: rest =>
    if k0 = k then (k0, vs ++ [v]) :: rest else (k0, vs) :: assocAppend rest k v

/-- Bucket lookup (`type_key in groups` / `groups[type_key]`). -/
def assocFind (g : List (String × List String)) (k : String) :
    Option (List String) :=
  match g with
  | [] => none
  | (k0, vs) :: rest => if k0 = k then some vs else assocFind rest k

/-- `sorted(groups.items())`: sort buckets by key (keys are distinct). -/
def sortByKey (g : List (String × List String)) : List (String × List String) :=
  sortLt (fun a b => pyStrLt a.1 b.1) g

/-- The fixed preferred kind order of `format_block`. -/
def typeOrder : List String := ["FIELD", "CONSTRUCTOR", "DESTRUCTOR", "FUNC", "FUNC_DECL"]

/-- Render one bucket: `{base}{KIND}:` then each member, sorted, one level
deeper. -/
def renderBucket (base ty : String) (items : List String) : List String :=
  (base ++ ty ++ ":") :: (pySorted items).map (fun it => base ++ "  " ++ it)

/-- `format_block(lines, base_indent)` from `process_cpp`: bucket the lines
by KIND label (lines that do not match the member pattern are dropped),
print the fixed-order kinds first, then the remaining kinds sorted by name. -/
def formatBlock (lines : List String) (base : String) : List String :=
  let groups := lines.foldl
    (fun g l =>
      match memberMatch l with
      | some (ty, txt) => assocAppend g ty txt
      | none => g) []
  let part1 := typeOrder.foldr
    (fun ty acc =>
      match assocFind groups ty with
      | some items => renderBucket base ty items ++ acc
      | none => acc) []
  let part2 := (sortByKey groups).foldr
    (fun p acc =>
      if typeOrder.contains p.1 then acc
      else renderBucket base p.1 p.2 ++ acc) []
  part1 ++ part2

/-- Outcome of Pass A on one line. -/
inductive PassAResult where
  | filed : String → String → PassAResult
  | kept : PassAResult
  | raised : String → PassAResult
deriving DecidableEq

/-- Pass A treatment of a single raw summary line (the body of the
`for line in file_summary_raw` loop in `process_cpp`). -/
def passALine (line : String) : PassAResult :=
  let l := line.data
  if startsWithSpace l = false ∧ hasSubL dcolon l = true then
    match reMatchKindSig l with
    | some (ty, sig) =>
      match rsplitOnce dcolon sig with
      | some (qual, mem) =>
        match (pySplitWsL qual).getLast? with
        | some cname =>
          let ret := List.intercalate [' '] (pySplitWsL qual).dropLast
          .filed (String.mk cname)
            (String.mk ([' ', ' '] ++ ty ++ [':', ' '] ++ pyStripL (ret ++ ' ' :: mem)))
        | none => .raised "list index out of range"
      | none => .kept
    | none => .kept
  else .kept

/-- Pass A over the whole list, accumulating the synthesized groups and the
remaining lines; an uncaught `IndexError` aborts with its message. -/
def passAGo (lines : List String) (cdefs : List (String × List String))
    (others : List String) :
    Except String (List (String × List String) × List String) :=
  match lines with
  | [] => .ok (cdefs, others)
  | l :: rest =>
    match passALine l with
    | .filed c m => passAGo rest (assocAppend cdefs c m) others
    | .kept => passAGo rest cdefs (others ++ [l])
    | .raised e => .error e

/-- Pass A of `process_cpp`. -/
def passA (lines : List String) : Except String (List (String × List String) × List String) :=
  passAGo lines [] []

/-- Leading-whitespace count of a line (`re.match(r"^(\s*)", line)`). -/
def indentLen (line : String) : Nat :=
  (line.data.takeWhile pyIsSpace).length

/-- `re.match(r"^(?P<indent>\s*)(?P<type>CLASS|STRUCT|NAMESPACE):...", line)`:
returns the indent when the line is a container header. -/
def containerMatch (line : String) : Option String :=
  let ind := line.data.takeWhile pyIsSpace
  let rest := line.data.drop ind.length
  if ("CLASS:".data.isPrefixOf rest ∨ "STRUCT:".data.isPrefixOf rest ∨
      "NAMESPACE:".data.isPrefixOf rest) then
    some (String.mk ind)
  else none

/-- The Pass-B scan of `process_cpp`, fuel-driven (the fuel is the list
length; each step consumes at least the head line): a container line is kept
standalone, its strictly-deeper block is regrouped by `format_block`, and
every other line is copied through. -/
def passBGo : Nat → List String → List String
  | 0, ls => ls
  | _ + 1, [] => []
  | fuel + 1, line :: rest =>
    match containerMatch line with
    | some ind =>
      let bi := ind.length
      let block := rest.takeWhile (fun l2 => bi < indentLen l2)
      let rest2 := rest.dropWhile (fun l2 => bi < indentLen l2)
      line :: ((if block = [] then [] else formatBlock block (ind ++ "  ")) ++
        passBGo fuel rest2)
    | none => line :: passBGo fuel rest

/-- Pass B of `process_cpp`. -/
def passB (lines : List String) : List String :=
  passBGo lines.length lines

/-- The synthesized Pass-A groups, appended after Pass B output: `CLASS:`
headers in owning-type order, members regrouped by `format_block`. -/
def renderGroups (cdefs : List (String × List String)) : List String :=
  (sortByKey cdefs).foldr
    (fun p acc => ("CLASS: " ++ p.1) :: (formatBlock p.2 "  " ++ acc)) []

/-- The whole post-processing of `process_cpp` on the raw walker output
(everything between `final_body = []` and `summary.extend(final_body)`),
with the escaping `IndexError` surfaced as an error. -/
def cppPost (raw : List String) : Except String (List String) :=
  match passA raw with
  | .error e => .error e
  | .ok (cdefs, others) => .ok (passB others ++ renderGroups cdefs)

/-! ### Per-file wrapper control flow

Each `process_*` wrapper receives the file path, whether its parser loaded,
and the walker outcome: either the exception it raised (file read, parse or
tree walk) or the lines and directives it produced.  The wrapper appends to
the shared project summary buffer and returns the new buffer; Python mutates
the list in place, which the functional reading below mirrors exactly,
including content already appended when a later exception is caught. -/

/-- The `-- FILE: ... --` section header. -/
def fileHeader (path lang : String) : String :=
  "\n-- FILE: " ++ path ++ " (" ++ lang ++ ") --"

/-- The per-file error line `  Error processing {path}: {e}`. -/
def errLine (path msg : String) : String :=
  "  Error processing " ++ path ++ ": " ++ msg

/-- A directives summary line such as `  INCLUDES: a, b`. -/
def directiveSummaryLine (label : String) (items : List String) : String :=
  "  " ++ label ++ ": " ++ pyJoin ", " (pySortedDedup items)

/-- `process_cpp(file_path, parser, summary)`; the walker outcome carries
`(file_summary_raw, includes_list)`. -/
def processCpp (path : String) (parserAvailable : Bool)
    (walk : Except String (List String × List String))
    (summary : List String) : List String :=
  if parserAvailable = false then summary
  else
    match walk with
    | .error e => summary ++ [fileHeader path "C/C++", errLine path e]
    | .ok (raw, includes) =>
      if raw = [] ∧ includes = [] then summary
      else
        let s1 := summary ++ [fileHeader path "C/C++"] ++
          (if includes = [] then [] else [directiveSummaryLine "INCLUDES" includes])
        match cppPost raw with
        | .ok body => s1 ++ body
        | .error e => s1 ++ [fileHeader path "C/C++", errLine path e]

/-- `process_csharp(file_path, parser, summary)`; the walker outcome carries
`(file_summary, usings_list)`. -/
def processCsharp (path : String) (parserAvailable : Bool)
    (walk : Except String (List String × List String))
    (summary : List String) : List String :=
  if parserAvailable = false then summary
  else
    match walk with
    | .error e => summary ++ [fileHeader path "C#", errLine path e]
    | .ok (fileSummary, usings) =>
      if fileSummary = [] ∧ usings = [] then summary
      else
        summary ++ [fileHeader path "C#"] ++
          (if usings = [] then [] else [directiveSummaryLine "USINGS" usings]) ++
          fileSummary

/-- `process_javascript(file_path, parser, summary)`. -/
def processJavascript (path : String) (parserAvailable : Bool)
    (walk : Except String (List String)) (summary : List String) : List String :=
  if parserAvailable = false then summary
  else
    match walk with
    | .error e => summary ++ [fileHeader path "JavaScript", errLine path e]
    | .ok fileSummary =>
      if fileSummary = [] then summary
      else summary ++ [fileHeader path "JavaScript"] ++ fileSummary

/-- `process_python(file_path, parser, summary)`; the walker outcome carries
`(file_summary, imports_list)`. -/
def processPython (path : String) (parserAvailable : Bool)
    (walk : Except String (List String × List String))
    (summary : List String) : List String :=
  if parserAvailable = false then summary
  else
    match walk with
    | .error e => summary ++ [fileHeader path "Python", errLine path e]
    | .ok (fileSummary, imports) =>
      if fileSummary = [] ∧ imports = [] then summary
      else
        summary ++ [fileHeader path "Python"] ++
          (if imports = [] then [] else [directiveSummaryLine "IMPORTS" imports]) ++
          fileSummary

/-! ### CSHTML leading-directive scan (`process_cshtml`) -/

/-- Python `s.startswith(pre)` as a character-list prefix test. -/
def pyStartsWith (s pre : String) : Bool :=
  pre.data.isPrefixOf s.data

/-- One iteration body of the directive scan: strip the line; if it starts
with one of the four fixed directive keywords, emit a `DIRECTIVE` line. -/
def directiveOf (line : String) : Option String :=
  let s := pyStrip line
  if pyStartsWith s "@page" ∨ pyStartsWith s "@model" ∨ pyStartsWith s "@using" ∨
      pyStartsWith s "@inject" then
    some ("  DIRECTIVE: " ++ s)
  else none

/-- The directive loop of `process_cshtml`: `for line_num, line in
enumerate(lines): if line_num > 30: break; ...` — the counter starts at 0
and the loop breaks *before* processing a line whose index exceeds 30. -/
def cshtmlDirGo (i : Nat) (lines : List String) : List String :=
  match lines with
  | [] => []
  | l :: rest =>
    if 30 < i then []
    else
      match directiveOf l with
      | some d => d :: cshtmlDirGo (i + 1) rest
      | none => cshtmlDirGo (i + 1) rest

/-- The leading-directive scan over the file's physical lines. -/
def cshtmlDirectives (lines : List String) : List String :=
  cshtmlDirGo 0 lines

/-- `process_cshtml(file_path, html_parser, js_parser, cs_parser, summary)`:
the directive scan runs on the decoded source lines; the markup walk
(abstracted) contributes further lines or an exception. -/
def processCshtml (path : String) (parserAvailable : Bool)
    (sourceLines : List String) (walk : Except String (List String))
    (summary : List String) : List String :=
  if parserAvailable = false then summary
  else
    match walk with
    | .error e => summary ++ [fileHeader path "CSHTML", errLine path e]
    | .ok markupLines =>
      let fileSummary := cshtmlDirectives sourceLines ++ markupLines
      if fileSummary = [] then summary
      else summary ++ [fileHeader path "CSHTML"] ++ fileSummary

/-! ### Artifact write (`main`) -/

/-- The write step of `main`: drop the first buffer element when it strips
to the empty string, then join the buffer with newlines. -/
def writeArtifact (projectSummary : List String) : String :=
  let ps :=
    match projectSummary with
    | [] => ([] : List String)
    | x :: rest => if pyStrip x = "" then rest else x :: rest
  pyJoin "\n" ps

/-! ### Helper lemmas -/

theorem takeWhile_all {p : Char → Bool} {l : List Char}
    (h : ∀ c ∈ l, p c = true) : l.takeWhile p = l := by
  induction l with
  | nil => rfl
  | cons c cs ih =>
    rw [List.takeWhile_cons_of_pos (h c (List.mem_cons_self c cs))]
    exact congrArg (c :: ·) (ih fun x hx => h x (List.mem_cons_of_mem c hx))

theorem dropWhile_head_not {p : Char → Bool} {l : List Char}
    (h : ∀ c, l.head? = some c → p c = false) : l.dropWhile p = l := by
  cases l with
  | nil => rfl
  | cons c cs =>
    exact List.dropWhile_cons_of_neg (by simp [h c rfl])

theorem mem_of_getLast?_eq {α : Type} {l : List α} {a : α}
    (h : l.getLast? = some a) : a ∈ l := by
  induction l with
  | nil => simp at h
  | cons x xs ih =>
    cases hx : xs with
    | nil => subst hx; simp [List.getLast?] at h; simp [h]
    | cons y ys =>
      subst hx
      rw [List.getLast?_cons_cons] at h
      exact List.mem_cons_of_mem x (ih h)

theorem occAt_mono {pat sig : List Char} {i : Nat} (pre : List Char)
    (h : occAt pat sig i = true) :
    occAt pat (pre ++ sig) (pre.length + i) = true := by
  unfold occAt at h ⊢
  have hd : (pre ++ sig).drop (pre.length + i) = sig.drop i := by
    induction pre with
    | nil => simp
    | cons c cs ih =>
      have h1 : (c :: cs).length + i = (cs.length + i) + 1 := by
        simp only [List.length_cons]; omega
      rw [List.cons_append, h1, List.drop_succ_cons]
      exact ih
  rw [hd]
  exact h

theorem occAt_lt_length {pat l : List Char} {i : Nat} (hne : pat ≠ [])
    (h : occAt pat l i = true) : i < l.length := by
  unfold occAt at h
  have hpre : pat <+: l.drop i := List.isPrefixOf_iff_prefix.mp h
  by_contra hc
  have : l.drop i = [] := List.drop_eq_nil_iff.mpr (by omega)
  rw [this] at hpre
  exact hne (List.prefix_nil.mp hpre)

theorem hasSubL_of_occAt {pat l : List Char} {i : Nat} (hne : pat ≠ [])
    (h : occAt pat l i = true) : hasSubL pat l = true := by
  unfold hasSubL
  rw [List.any_eq_true]
  exact ⟨i, List.mem_range.mpr (Nat.lt_succ_of_lt (occAt_lt_length hne h)), h⟩

theorem lastOcc_occAt {pat l : List Char} {i : Nat}
    (h : lastOcc pat l = some i) : occAt pat l i = true :=
  (List.mem_filter.mp (mem_of_getLast?_eq h)).2

theorem rsplitOnce_occurs {pat l q m : List Char}
    (h : rsplitOnce pat l = some (q, m)) : ∃ i, occAt pat l i = true := by
  unfold rsplitOnce at h
  cases hl : lastOcc pat l with
  | none => rw [hl] at h; exact absurd h (by simp)
  | some i => exact ⟨i, lastOcc_occAt hl⟩

/-! ### Theorems for the claims -/

/-- C6. A file whose walker yields no directives and no summary lines
contributes nothing to the project report: each per-file wrapper returns the
buffer unchanged, so a `FileSection` appears only when its directive list or
its summary-line sequence is non-empty. -/
theorem empty_file_no_section (buf : List String) (path : String) (pa : Bool) :
    processCpp path pa (.ok ([], [])) buf = buf ∧
    processCsharp path pa (.ok ([], [])) buf = buf ∧
    processJavascript path pa (.ok []) buf = buf ∧
    processPython path pa (.ok ([], [])) buf = buf ∧
    processCshtml path pa [] (.ok []) buf = buf := by
  cases pa <;> exact ⟨rfl, rfl, rfl, rfl, rfl⟩

/-- C10. When the parser required for a file's language failed to load, the
per-file wrapper returns immediately and the project summary buffer is left
completely unchanged — no header, no error line, no summary lines. -/
theorem parser_unavailable_frame (buf : List String) (path : String)
    (w2 : Except String (List String × List String))
    (w1 : Except String (List String)) (src : List String) :
    processCpp path false w2 buf = buf ∧
    processCsharp path false w2 buf = buf ∧
    processJavascript path false w1 buf = buf ∧
    processPython path false w2 buf = buf ∧
    processCshtml path false src w1 buf = buf :=
  ⟨rfl, rfl, rfl, rfl, rfl⟩

/-- C4 (code bug evidence). A top-level line whose qualifier part before the
last `::` is empty, such as `FUNC: ::Bar()`, makes `qualifiers_parts[-1]`
raise `IndexError`, which the `except ValueError` fallback does not catch,
so the whole post-processing aborts instead of leaving the line in place.
A line whose signature merely fails the `rsplit` unpacking (here `OP:: x`,
whose captured signature holds no `::`) does take the `ValueError` fallback
and is left in place unmodified. -/
theorem cpp_empty_qualifier_raises :
    cppPost ["FUNC: ::Bar()"] = Except.error "list index out of range" ∧
    cppPost ["OP:: x"] = Except.ok ["OP:: x"] := by
  constructor <;> rfl

/-! ### Order and sorting lemmas for the Python comparator -/

theorem pyLtL_asymm : ∀ {a b : List Char}, pyLtL a b = true → pyLtL b a = false := by
  intro a
  induction a with
  | nil =>
    intro b h
    cases b with
    | nil => simp [pyLtL] at h
    | cons y ys => simp [pyLtL]
  | cons x xs ih =>
    intro b h
    cases b with
    | nil => simp [pyLtL] at h
    | cons y ys =>
      simp only [pyLtL, Bool.or_eq_true, Bool.and_eq_true, decide_eq_true_eq] at h ⊢
      simp only [Bool.or_eq_false_iff, Bool.and_eq_false_iff, decide_eq_false_iff_not]
      rcases h with h | ⟨rfl, h2⟩
      · constructor
        · omega
        · left
          intro he
          rw [he] at h
          omega
      · exact ⟨by omega, Or.inr (ih h2)⟩

theorem pyLtL_trans : ∀ {a b c : List Char},
    pyLtL a b = true → pyLtL b c = true → pyLtL a c = true := by
  intro a
  induction a with
  | nil =>
    intro b c h1 h2
    cases b with
    | nil => simp [pyLtL] at h1
    | cons y ys =>
      cases c with
      | nil => simp [pyLtL] at h2
      | cons z zs => simp [pyLtL]
  | cons x xs ih =>
    intro b c h1 h2
    cases b with
    | nil => simp [pyLtL] at h1
    | cons y ys =>
      cases c with
      | nil => simp [pyLtL] at h2
      | cons z zs =>
        simp only [pyLtL, Bool.or_eq_true, Bool.and_eq_true, decide_eq_true_eq] at h1 h2 ⊢
        rcases h1 with h1 | ⟨rfl, h1'⟩
        · rcases h2 with h2 | ⟨rfl, h2'⟩
          · exact Or.inl (by omega)
          · exact Or.inl h1
        · rcases h2 with h2 | ⟨rfl, h2'⟩
          · exact Or.inl h2
          · exact Or.inr ⟨rfl, ih h1' h2'⟩

theorem pyStrLt_asymm {a b : String} (h : pyStrLt a b = true) : pyStrLt b a = false :=
  pyLtL_asymm h

theorem pyStrLt_trans {a b c : String} (h1 : pyStrLt a b = true)
    (h2 : pyStrLt b c = true) : pyStrLt a c = true :=
  pyLtL_trans h1 h2

theorem length_insertLt {α : Type} (lt : α → α → Bool) (x : α) (l : List α) :
    (insertLt lt x l).length = l.length + 1 := by
  induction l with
  | nil => rfl
  | cons y ys ih =>
    unfold insertLt
    by_cases h : lt x y = true
    · simp [h]
    · simp only [Bool.not_eq_true] at h
      simp [h, ih]

theorem length_sortLt {α : Type} (lt : α → α → Bool) (l : List α) :
    (sortLt lt l).length = l.length := by
  suffices h : ∀ acc : List α,
      (l.foldl (fun acc x => insertLt lt x acc) acc).length = acc.length + l.length by
    simpa using h []
  induction l with
  | nil => intro acc; simp
  | cons y ys ih =>
    intro acc
    simp only [List.foldl_cons, ih, length_insertLt, List.length_cons]
    omega

theorem mem_insertLt {α : Type} {lt : α → α → Bool} {x y : α} {l : List α}
    (h : y ∈ insertLt lt x l) : y = x ∨ y ∈ l := by
  induction l with
  | nil => simp [insertLt] at h; simp [h]
  | cons z zs ih =>
    unfold insertLt at h
    by_cases hc : lt x z = true
    · simp [hc] at h
      rcases h with h | h | h
      · exact Or.inl h
      · exact Or.inr (by simp [h])
      · exact Or.inr (List.mem_cons_of_mem z h)
    · simp only [Bool.not_eq_true] at hc
      simp only [hc, Bool.false_eq_true, if_false, List.mem_cons] at h
      rcases h with h | h
      · exact Or.inr (by simp [h])
      · rcases ih h with h | h
        · exact Or.inl h
        · exact Or.inr (List.mem_cons_of_mem z h)

theorem pairwise_insertLt {α : Type} (lt : α → α → Bool)
    (hasym : ∀ a b, lt a b = true → lt b a = false)
    (htrans : ∀ a b c, lt a b = true → lt b c = true → lt a c = true)
    {l : List α} (x : α)
    (h : List.Pairwise (fun a b => lt b a = false) l) :
    List.Pairwise (fun a b => lt b a = false) (insertLt lt x l) := by
  induction l with
  | nil => simp [insertLt]
  | cons y ys ih =>
    rcases List.pairwise_cons.mp h with ⟨hy, hys⟩
    unfold insertLt
    by_cases hc : lt x y = true
    · simp only [hc, if_true]
      rw [List.pairwise_cons]
      refine ⟨?_, h⟩
      intro z hz
      rcases List.mem_cons.mp hz with rfl | hz'
      · exact hasym x z hc
      · by_contra hzx
        simp only [Bool.not_eq_false] at hzx
        have hzy : lt z y = true := htrans z x y hzx hc
        rw [hy z hz'] at hzy
        exact Bool.false_ne_true hzy
    · simp only [Bool.not_eq_true] at hc
      simp only [hc, Bool.false_eq_true, if_false]
      rw [List.pairwise_cons]
      refine ⟨?_, ih hys⟩
      intro z hz
      rcases mem_insertLt hz with rfl | hz'
      · exact hc
      · exact hy z hz'

theorem pairwise_sortLt {α : Type} (lt : α → α → Bool)
    (hasym : ∀ a b, lt a b = true → lt b a = false)
    (htrans : ∀ a b c, lt a b = true → lt b c = true → lt a c = true)
    (l : List α) :
    List.Pairwise (fun a b => lt b a = false) (sortLt lt l) := by
  suffices h : ∀ acc : List α, List.Pairwise (fun a b => lt b a = false) acc →
      List.Pairwise (fun a b => lt b a = false)
        (l.foldl (fun acc x => insertLt lt x acc) acc) by
    exact h [] List.Pairwise.nil
  induction l with
  | nil => intro acc hacc; simpa using hacc
  | cons y ys ih =>
    intro acc hacc
    exact ih (insertLt lt y acc) (pairwise_insertLt lt hasym htrans y hacc)

theorem pySorted_length (l : List String) : (pySorted l).length = l.length :=
  length_sortLt pyStrLt l

theorem pySorted_pairwise (l : List String) :
    List.Pairwise (fun a b => pyStrLt b a = false) (pySorted l) :=
  pairwise_sortLt pyStrLt (fun _ _ h => pyStrLt_asymm h)
    (fun _ _ _ h1 h2 => pyStrLt_trans h1 h2) l

/-- C2 (counterexample). The claim's own instance: three same-kind lines
`FIELD: int x`, `FIELD: int x`, `FIELD: int y` inside a container block are
grouped under one `FIELD:` header, but the duplicate member is *kept*:
`format_block` sorts with `sorted(...)` and never removes duplicates, so the
header has three children, not the claimed two. -/
theorem passB_dedup_cex :
    cppPost ["CLASS: A", "  FIELD: int x", "  FIELD: int x", "  FIELD: int y"] =
      Except.ok ["CLASS: A", "  FIELD:", "    int x", "    int x", "    int y"] ∧
    cppPost ["CLASS: A", "  FIELD: int x", "  FIELD: int x", "  FIELD: int y"] ≠
      Except.ok ["CLASS: A", "  FIELD:", "    int x", "    int y"] := by
  constructor
  · rfl
  · intro h
    rw [show cppPost ["CLASS: A", "  FIELD: int x", "  FIELD: int x", "  FIELD: int y"] =
        Except.ok ["CLASS: A", "  FIELD:", "    int x", "    int x", "    int y"] from rfl] at h
    simp at h

/-- C2 (amended). Within a container block, Pass B groups member lines
sharing a KIND label under one `{indent}{KIND}:` header with the members
re-indented one level deeper and sorted lexicographically, duplicates
*retained*: the claim's instance produces three sorted children.  The sort
used by the grouping is length-preserving (nothing is deduplicated) and its
output is lexicographically ordered. -/
theorem passB_same_kind_grouping :
    cppPost ["CLASS: A", "  FIELD: int x", "  FIELD: int x", "  FIELD: int y"] =
      Except.ok ["CLASS: A", "  FIELD:", "    int x", "    int x", "    int y"] ∧
    (∀ l : List String, (pySorted l).length = l.length) ∧
    (∀ l : List String,
      List.Pairwise (fun a b => pyStrLt b a = false) (pySorted l)) :=
  ⟨rfl, pySorted_length, pySorted_pairwise⟩

/-- C3 (counterexample). A container line nested inside another container's
block is *not* kept standalone: `  CLASS: C` inside `NAMESPACE: N` is
collapsed by `format_block` into a `  CLASS:` kind header with child
`    C`, and the standalone line disappears from the output. -/
theorem container_collapsed_cex :
    cppPost ["NAMESPACE: N", "  CLASS: C", "    FIELD: int x"] =
      Except.ok ["NAMESPACE: N", "  FIELD:", "    int x", "  CLASS:", "    C"] ∧
    "  CLASS: C" ∉ ["NAMESPACE: N", "  FIELD:", "    int x", "  CLASS:", "    C"] := by
  exact ⟨rfl, by decide⟩

/-- C3 (amended). A container-kind line that the Pass-B scan reaches
directly (CLASS/STRUCT/NAMESPACE at the current scan position) is emitted
standalone and unmodified at its position — it heads the scan's output;
container lines swallowed into an enclosing block are grouped like ordinary
members instead, and a `UNION:` line is never matched as a container. -/
theorem passB_container_head_standalone :
    (∀ (line : String) (rest : List String) (ind : String),
        containerMatch line = some ind →
        (passB (line :: rest)).head? = some line) ∧
    containerMatch "UNION: U" = none := by
  constructor
  · intro line rest ind h
    show (passBGo (line :: rest).length (line :: rest)).head? = some line
    rw [List.length_cons]
    simp only [passBGo, h, List.head?_cons]
  · rfl

/-- Witness for `passB_container_head_standalone`: a concrete zero-indent
class line heads its own Pass-B output. -/
theorem passB_container_head_standalone_witness :
    (passB ["CLASS: A"]).head? = some "CLASS: A" :=
  passB_container_head_standalone.1 "CLASS: A" [] "" rfl

/-- C5 (counterexample). When the post-processing of a C++ file raises (the
`IndexError` of Pass A), the section is *not* replaced by a lone error
section: the header already appended before the failure survives, so partial
section content precedes the error section, and the buffer differs from the
claimed replaced form. -/
theorem cpp_error_partial_cex :
    processCpp "f.cpp" true (.ok (["FUNC: ::Bar()"], [])) [] =
      ["\n-- FILE: f.cpp (C/C++) --", "\n-- FILE: f.cpp (C/C++) --",
       "  Error processing f.cpp: list index out of range"] ∧
    processCpp "f.cpp" true (.ok (["FUNC: ::Bar()"], [])) [] ≠
      ["\n-- FILE: f.cpp (C/C++) --",
       "  Error processing f.cpp: list index out of range"] := by
  constructor
  · rfl
  · intro h
    rw [show processCpp "f.cpp" true (.ok (["FUNC: ::Bar()"], [])) [] =
        ["\n-- FILE: f.cpp (C/C++) --", "\n-- FILE: f.cpp (C/C++) --",
         "  Error processing f.cpp: list index out of range"] from rfl] at h
    simp at h

/-- C5 (amended). Every exception is caught at the file boundary and turned
into an error section (a header naming the file plus an error line with the
message), after which processing continues; but content appended before the
exception is not removed.  An exception raised by the walker (file read,
parse, tree walk) yields a clean error section; an exception raised during
post-processing leaves the already-appended header (and INCLUDES line), and
the error section follows them. -/
theorem cpp_error_line_at_boundary :
    (∀ (path e : String) (buf : List String),
        processCpp path true (.error e) buf =
          buf ++ [fileHeader path "C/C++", errLine path e]) ∧
    (∀ (path e : String) (raw incs buf : List String),
        cppPost raw = .error e → ¬(raw = [] ∧ incs = []) →
        processCpp path true (.ok (raw, incs)) buf =
          buf ++ [fileHeader path "C/C++"] ++
          (if incs = [] then [] else [directiveSummaryLine "INCLUDES" incs]) ++
          [fileHeader path "C/C++", errLine path e]) := by
  constructor
  · intro path e buf
    rfl
  · intro path e raw incs buf hpost hne
    unfold processCpp
    simp [hpost, hne]

/-- Witness for `cpp_error_line_at_boundary`: the raising input, one include. -/
theorem cpp_error_line_at_boundary_witness :
    processCpp "f.cpp" true (.ok (["FUNC: ::Bar()"], ["a.h"])) [] =
      [fileHeader "f.cpp" "C/C++", directiveSummaryLine "INCLUDES" ["a.h"],
       fileHeader "f.cpp" "C/C++", errLine "f.cpp" "list index out of range"] := by
  have h := cpp_error_line_at_boundary.2 "f.cpp" "list index out of range"
    ["FUNC: ::Bar()"] ["a.h"] [] rfl (by simp)
  simpa using h

/-- C8 (counterexample). The directive scan breaks only when the zero-based
line counter *exceeds* 30, so it examines 31 physical lines, not 30: a
`@page` directive on the 31st line (index 30) of the file is still emitted,
while one on the 32nd line is not. -/
theorem cshtml_scan_31_cex :
    (List.replicate 30 "filler" ++ ["@page Foo"]).length = 31 ∧
    cshtmlDirectives (List.replicate 30 "filler" ++ ["@page Foo"]) =
      ["  DIRECTIVE: @page Foo"] ∧
    cshtmlDirectives (List.replicate 31 "filler" ++ ["@page Foo"]) = [] := by
  exact ⟨rfl, rfl, rfl⟩

/-- Helper for C8: the counter-and-break loop equals a take-and-filter. -/
theorem cshtmlDirGo_take (lines : List String) :
    ∀ i, cshtmlDirGo i lines = (lines.take (31 - i)).filterMap directiveOf := by
  induction lines with
  | nil => intro i; simp [cshtmlDirGo]
  | cons l rest ih =>
    intro i
    by_cases h : 30 < i
    · have h0 : 31 - i = 0 := by omega
      simp [cshtmlDirGo, h, h0]
    · have h1 : 31 - i = (30 - i) + 1 := by omega
      have h2 : 31 - (i + 1) = 30 - i := by omega
      rw [h1]
      simp only [List.take_succ_cons, List.filterMap_cons]
      cases hd : directiveOf l with
      | none => simp [cshtmlDirGo, h, hd, ih (i + 1), h2]
      | some d => simp [cshtmlDirGo, h, hd, ih (i + 1), h2]

/-- C8 (amended). The leading-directive scan of a template file examines
exactly the first 31 physical lines (zero-based indices 0 through 30): a
line is emitted as a `DIRECTIVE` line iff it lies among the first 31 lines
and, once stripped, starts with one of the four fixed keywords. -/
theorem cshtml_directives_first31 (lines : List String) :
    cshtmlDirectives lines = (lines.take 31).filterMap directiveOf := by
  have h := cshtmlDirGo_take lines 0
  simpa [cshtmlDirectives] using h

/-- C9 (counterexample). In the only shape the program ever produces, the
first buffer element is a file header that *embeds* a leading newline; it
does not strip to empty, so nothing is dropped, and the written artifact
starts with a newline — its first physical line is blank. -/
theorem write_leading_blank_cex :
    writeArtifact ["\n-- FILE: a.cs (C#) --", "x"] = "\n-- FILE: a.cs (C#) --\nx" ∧
    ("\n-- FILE: a.cs (C#) --\nx").data.head? = some '\n' := by
  exact ⟨rfl, rfl⟩

/-- C9 (amended). Before writing, the *first buffer element* is removed iff
it strips to the empty string; at most that one element is dropped, and the
remaining elements are joined with newlines unchanged (so the artifact can
still begin with a blank line when the first kept element embeds a leading
newline). -/
theorem writeArtifact_drops_one_blank (x : String) (rest : List String) :
    (pyStrip x = "" → writeArtifact (x :: rest) = pyJoin "\n" rest) ∧
    (pyStrip x ≠ "" → writeArtifact (x :: rest) = pyJoin "\n" (x :: rest)) := by
  constructor <;> intro h <;> unfold writeArtifact <;> simp [h]

/-- Witness for `writeArtifact_drops_one_blank`: a whitespace-only first
element is dropped. -/
theorem writeArtifact_drops_one_blank_witness :
    pyStrip " " = "" ∧ writeArtifact [" ", "x"] = pyJoin "\n" ["x"] :=
  ⟨by decide, (writeArtifact_drops_one_blank " " ["x"]).1 (by decide)⟩

/-! ### Pass A parse inversion (for C1) -/

theorem reMatchKindSig_mk (ty sig : List Char) (h1 : ty ≠ [])
    (h2 : ∀ c ∈ ty, isWordChar c = true)
    (h3 : ∀ c, sig.head? = some c → pyIsSpace c = false)
    (h4 : '\n' ∉ sig) :
    reMatchKindSig (ty ++ ':' :: ' ' :: sig) = some (ty, sig) := by
  have hw : (ty ++ ':' :: ' ' :: sig).takeWhile isWordChar = ty := by
    rw [List.takeWhile_append_of_pos h2,
      List.takeWhile_cons_of_neg (by decide : ¬ isWordChar ':' = true)]
    simp
  unfold reMatchKindSig
  rw [hw, if_neg h1, List.drop_left]
  have hdw : (' ' :: sig).dropWhile pyIsSpace = sig := by
    rw [List.dropWhile_cons_of_pos (by decide : pyIsSpace ' ' = true)]
    exact dropWhile_head_not h3
  have htw : sig.takeWhile (fun c2 => c2 ≠ '\n') = sig := by
    refine takeWhile_all ?_
    intro c hc
    simp only [ne_eq, decide_eq_true_eq]
    intro he
    rw [he] at hc
    exact h4 hc
  simp only [hdw, htw, if_true]

theorem passALine_mk (ty sig qual mem cname : List Char) (h1 : ty ≠ [])
    (h2 : ∀ c ∈ ty, isWordChar c = true)
    (h3 : ∀ c, sig.head? = some c → pyIsSpace c = false)
    (h4 : '\n' ∉ sig)
    (h5 : rsplitOnce dcolon sig = some (qual, mem))
    (h6 : (pySplitWsL qual).getLast? = some cname) :
    passALine (String.mk (ty ++ ':' :: ' ' :: sig)) =
      PassAResult.filed (String.mk cname)
        (String.mk (' ' :: ' ' :: ty ++ ':' :: ' ' ::
          pyStripL (List.intercalate [' '] (pySplitWsL qual).dropLast ++ ' ' :: mem))) := by
  have hhead : startsWithSpace (ty ++ ':' :: ' ' :: sig) = false := by
    cases ty with
    | nil => exact absurd rfl h1
    | cons c cs =>
      have hcw := h2 c (List.mem_cons_self c cs)
      simp only [List.cons_append, startsWithSpace, decide_eq_false_iff_not]
      intro he
      rw [he] at hcw
      exact absurd hcw (by decide)
  have hsub : hasSubL dcolon (ty ++ ':' :: ' ' :: sig) = true := by
    obtain ⟨i, hi⟩ := rsplitOnce_occurs h5
    have hmono := occAt_mono (ty ++ [':', ' ']) hi
    simp only [List.append_assoc, List.cons_append, List.nil_append] at hmono
    exact hasSubL_of_occAt (by decide) hmono
  unfold passALine
  rw [if_pos ⟨hhead, hsub⟩, reMatchKindSig_mk ty sig h1 h2 h3 h4]
  simp [h5, h6]

/-- C1. Pass A of the C++ regrouping post-processor: a top-level summary
line `TY: sig` whose signature contains `::` is split at the *last* `::`;
the last whitespace-separated word of the left part is the owning type, the
preceding words the declared type, and the member is filed (re-rendered
without the owning-type qualifier) under a synthesized group keyed by the
owning type.  In particular `FUNC: int Foo::Bar()` yields a group for `Foo`
holding `int Bar()` with no `Foo::` qualifier, and the synthesized groups
come after all other output lines as `CLASS:` headers in owning-type order
(the hypothesis below: the kind label is a non-empty word, the signature
starts with a non-space character, holds no newline, splits at `::`, and
its qualifier part has a last word). -/
theorem passA_qualified_split :
    (∀ (ty sig qual mem cname : List Char),
        ty ≠ [] → (∀ c ∈ ty, isWordChar c = true) →
        (∀ c, sig.head? = some c → pyIsSpace c = false) → '\n' ∉ sig →
        rsplitOnce dcolon sig = some (qual, mem) →
        (pySplitWsL qual).getLast? = some cname →
        passALine (String.mk (ty ++ ':' :: ' ' :: sig)) =
          PassAResult.filed (String.mk cname)
            (String.mk (' ' :: ' ' :: ty ++ ':' :: ' ' ::
              pyStripL (List.intercalate [' '] (pySplitWsL qual).dropLast ++ ' ' :: mem)))) ∧
    cppPost ["FUNC: int Foo::Bar()"] =
      Except.ok ["CLASS: Foo", "  FUNC:", "    int Bar()"] ∧
    (∀ raw cdefs others, passA raw = .ok (cdefs, others) →
        cppPost raw = .ok (passB others ++ renderGroups cdefs)) ∧
    (∀ g : List (String × List String),
        List.Pairwise (fun a b => pyStrLt b.1 a.1 = false) (sortByKey g)) := by
  refine ⟨passALine_mk, rfl, ?_, ?_⟩
  · intro raw cdefs others h
    unfold cppPost
    rw [h]
  · intro g
    refine pairwise_sortLt (fun a b => pyStrLt a.1 b.1) ?_ ?_ g
    · intro a b h
      exact pyStrLt_asymm h
    · intro a b c h1 h2
      exact pyStrLt_trans h1 h2

/-- Witness for `passA_qualified_split`: the spec's own example line. -/
theorem passA_qualified_split_witness :
    passALine (String.mk ("FUNC".data ++ ':' :: ' ' :: "int Foo::Bar()".data)) =
      PassAResult.filed (String.mk "Foo".data)
        (String.mk (' ' :: ' ' :: "FUNC".data ++ ':' :: ' ' ::
          pyStripL (List.intercalate [' ']
            (pySplitWsL "int Foo".data).dropLast ++ ' ' :: "Bar()".data))) :=
  passA_qualified_split.1 "FUNC".data "int Foo::Bar()".data "int Foo".data
    "Bar()".data "Foo".data (by decide) (by decide)
    (by intro c hc; simp at hc; rw [← hc]; decide) (by decide) (by decide) (by decide)

/-! ### UTF-8 decoder correctness (for C7) -/

theorem utf8DecodeUnits_encode_cons (n : Nat) (rest : List Nat)
    (h : validCpB n = true) :
    utf8DecodeUnits (utf8EncodeCp n ++ rest) = some n :: utf8DecodeUnits rest := by
  have hv : n < 0xD800 ∨ (0xE000 ≤ n ∧ n < 0x110000) := by
    simpa only [validCpB, Bool.or_eq_true, Bool.and_eq_true, decide_eq_true_eq] using h
  by_cases h1 : n < 0x80
  · have he : utf8EncodeCp n = [n] := by simp [utf8EncodeCp, h1]
    rw [he, List.cons_append, List.nil_append, utf8DecodeUnits.eq_def]
    simp only [h1, if_true, ite_true]
  · by_cases h2 : n < 0x800
    · have he : utf8EncodeCp n = [0xC0 + n / 0x40, 0x80 + n % 0x40] := by
        simp [utf8EncodeCp, h1, h2]
      rw [he]
      simp only [List.cons_append, List.nil_append]
      have c1 : ¬ (0xC0 + n / 0x40 < 0x80) := by omega
      have c2 : ¬ (0xC0 + n / 0x40 < 0xC2) := by omega
      have c3 : 0xC0 + n / 0x40 < 0xE0 := by omega
      have c4 : 0x80 ≤ 0x80 + n % 0x40 := by omega
      have c5 : 0x80 + n % 0x40 < 0xC0 := by omega
      have hval : (0xC0 + n / 0x40 - 0xC0) * 0x40 + (0x80 + n % 0x40 - 0x80) = n := by
        omega
      rw [utf8DecodeUnits.eq_def]
      simp only [c1, c2, c3, c4, c5, hval, if_true, if_false,
        ite_true, ite_false, and_self, true_and, and_true]
    · by_cases h3 : n < 0x10000
      · have he : utf8EncodeCp n =
            [0xE0 + n / 0x1000, 0x80 + n / 0x40 % 0x40, 0x80 + n % 0x40] := by
          simp [utf8EncodeCp, h1, h2, h3]
        rw [he]
        simp only [List.cons_append, List.nil_append]
        have c1 : ¬ (0xE0 + n / 0x1000 < 0x80) := by omega
        have c2 : ¬ (0xE0 + n / 0x1000 < 0xC2) := by omega
        have c3 : ¬ (0xE0 + n / 0x1000 < 0xE0) := by omega
        have c4 : 0xE0 + n / 0x1000 < 0xF0 := by omega
        have hlo : cont2lo (0xE0 + n / 0x1000) ≤ 0x80 + n / 0x40 % 0x40 := by
          unfold cont2lo
          split <;> omega
        have hhi : 0x80 + n / 0x40 % 0x40 < cont2hi (0xE0 + n / 0x1000) := by
          rcases hv with hv | hv <;>
            · unfold cont2hi
              split <;> omega
        have c5 : 0x80 ≤ 0x80 + n % 0x40 := by omega
        have c6 : 0x80 + n % 0x40 < 0xC0 := by omega
        have hval : (0xE0 + n / 0x1000 - 0xE0) * 0x1000 +
            (0x80 + n / 0x40 % 0x40 - 0x80) * 0x40 + (0x80 + n % 0x40 - 0x80) = n := by
          omega
        rw [utf8DecodeUnits.eq_def]
        simp only [c1, c2, c3, c4, hlo, hhi, c5, c6, hval,
          if_true, if_false, ite_true, ite_false, and_self, true_and, and_true]
      · have hn : 0x10000 ≤ n ∧ n < 0x110000 := by
          rcases hv with hv | hv <;> omega
        have he : utf8EncodeCp n =
            [0xF0 + n / 0x40000, 0x80 + n / 0x1000 % 0x40,
             0x80 + n / 0x40 % 0x40, 0x80 + n % 0x40] := by
          simp [utf8EncodeCp, h1, h2, h3]
        rw [he]
        simp only [List.cons_append, List.nil_append]
        have c1 : ¬ (0xF0 + n / 0x40000 < 0x80) := by omega
        have c2 : ¬ (0xF0 + n / 0x40000 < 0xC2) := by omega
        have c3 : ¬ (0xF0 + n / 0x40000 < 0xE0) := by omega
        have c4 : ¬ (0xF0 + n / 0x40000 < 0xF0) := by omega
        have c5 : 0xF0 + n / 0x40000 < 0xF5 := by omega
        have hlo : cont3lo (0xF0 + n / 0x40000) ≤ 0x80 + n / 0x1000 % 0x40 := by
          unfold cont3lo
          split <;> omega
        have hhi : 0x80 + n / 0x1000 % 0x40 < cont3hi (0xF0 + n / 0x40000) := by
          unfold cont3hi
          split <;> omega
        have c6 : 0x80 ≤ 0x80 + n / 0x40 % 0x40 := by omega
        have c7 : 0x80 + n / 0x40 % 0x40 < 0xC0 := by omega
        have c8 : 0x80 ≤ 0x80 + n % 0x40 := by omega
        have c9 : 0x80 + n % 0x40 < 0xC0 := by omega
        have hval : (0xF0 + n / 0x40000 - 0xF0) * 0x40000 +
            (0x80 + n / 0x1000 % 0x40 - 0x80) * 0x1000 +
            (0x80 + n / 0x40 % 0x40 - 0x80) * 0x40 + (0x80 + n % 0x40 - 0x80) = n := by
          omega
        rw [utf8DecodeUnits.eq_def]
        simp only [c1, c2, c3, c4, c5, hlo, hhi, c6, c7, c8, c9,
          hval, if_true, if_false, ite_true, ite_false, and_self, true_and, and_true]

theorem utf8DecodeUnits_encodeList (ns : List Nat)
    (h : ∀ n ∈ ns, validCpB n = true) :
    utf8DecodeUnits (utf8EncodeList ns) = ns.map some := by
  induction ns with
  | nil =>
    rw [show utf8EncodeList [] = [] from rfl, utf8DecodeUnits.eq_def]
    rfl
  | cons n ns ih =>
    have hstep : utf8EncodeList (n :: ns) = utf8EncodeCp n ++ utf8EncodeList ns := rfl
    rw [hstep, utf8DecodeUnits_encode_cons n _ (h n (List.mem_cons_self n ns)),
      ih (fun m hm => h m (List.mem_cons_of_mem n hm))]
    rfl

theorem pySlice_middle (p e q : List Nat) :
    pySlice (p ++ e ++ q) p.length (p.length + e.length) = e := by
  induction p with
  | nil =>
    simp only [List.nil_append, List.length_nil, Nat.zero_add]
    unfold pySlice
    simp [List.take_left]
  | cons c cs ih =>
    unfold pySlice at ih ⊢
    have h1 : cs.length + 1 + e.length = cs.length + e.length + 1 := by omega
    simp only [List.cons_append, List.length_cons, h1, List.take_succ_cons,
      List.drop_succ_cons]
    exact ih

/-- C7. The node-text accessor: it returns the caller's default whenever the
node is absent; for a present node it decodes the node's byte span as UTF-8
(a span holding a valid encoding decodes to exactly those code points, with
no replacement), and malformed bytes produce the U+FFFD replacement
character instead of a failure — the function is total and pure by
construction. -/
theorem get_node_text_spec :
    (∀ (src : List Nat) (d : String), get_node_text none src d = d) ∧
    (∀ (p q ns : List Nat) (d : String),
        (∀ n ∈ ns, validCpB n = true) →
        get_node_text (some ⟨p.length, p.length + (utf8EncodeList ns).length⟩)
          (p ++ utf8EncodeList ns ++ q) d =
          String.mk (ns.map Char.ofNat)) ∧
    get_node_text (some ⟨0, 2⟩) [0x41, 0xFF] "" =
      String.mk [Char.ofNat 0x41, Char.ofNat 0xFFFD] := by
  refine ⟨fun _ _ => rfl, ?_, ?_⟩
  · intro p q ns d h
    show utf8DecodeReplace (pySlice (p ++ utf8EncodeList ns ++ q) p.length
        (p.length + (utf8EncodeList ns).length)) = _
    rw [pySlice_middle]
    unfold utf8DecodeReplace
    rw [utf8DecodeUnits_encodeList ns h]
    unfold unitsToChars
    simp only [List.map_map]
    have hfun : ((fun u : Option Nat => Char.ofNat (u.getD 0xFFFD)) ∘ some) =
        fun n : Nat => Char.ofNat n := funext fun n => rfl
    rw [hfun]
  · show utf8DecodeReplace (pySlice [0x41, 0xFF] 0 2) = _
    rw [show pySlice [0x41, 0xFF] 0 2 = [0x41, 0xFF] from rfl]
    unfold utf8DecodeReplace unitsToChars
    simp [utf8DecodeUnits]

/-- Witness for `get_node_text_spec`: a two-code-point span (`H`, `α`). -/
theorem get_node_text_spec_witness :
    get_node_text (some ⟨0, (utf8EncodeList [72, 945]).length⟩)
      (utf8EncodeList [72, 945]) "" = String.mk [Char.ofNat 72, Char.ofNat 945] := by
  have h := get_node_text_spec.2.1 [] [] [72, 945] "" (by decide)
  simpa using h
